import Mathlib

/-!
Verification model of the conflict-resolution engine declared in
`yb/docdb/conflict_resolution.h` (intent codec, transactional and
non-transactional conflict resolvers).  The repository snapshot contains the
header with its contract comments but not the implementation file, so the
operational definitions below are modelled from the specification document
and the header comments.  Byte strings are `List Nat`, hybrid times are `Nat`.
-/

/-- Hybrid time: a totally ordered logical timestamp. -/
abbrev HybridTime := Nat

/-- Modelled from the spec: IntentTypeSet is a small bitset over
weak-read, weak-write, strong-read, strong-write. -/
structure IntentTypeSet where
  weakRead : Bool
  weakWrite : Bool
  strongRead : Bool
  strongWrite : Bool
deriving DecidableEq

/-- The set asserts at least one access marker. -/
def IntentTypeSet.hasAny (s : IntentTypeSet) : Bool :=
  s.weakRead || s.weakWrite || s.strongRead || s.strongWrite

/-- The set contains a write marker (weak or strong). -/
def IntentTypeSet.hasWrite (s : IntentTypeSet) : Bool :=
  s.weakWrite || s.strongWrite

/-- Modelled from the spec: two IntentTypeSets are incompatible exactly when
both assert some access and at least one of them asserts a write
(read/read is always compatible; any write intersects with any access). -/
def typeSetsConflict (a b : IntentTypeSet) : Bool :=
  (a.hasAny && b.hasAny) && (a.hasWrite || b.hasWrite)

/-- `isAncestor p q`: the DocPath `p` is a (not necessarily proper)
lexicographic prefix of `q`, i.e. an ancestor in the document hierarchy. -/
def isAncestor : List Nat → List Nat → Bool
  | [], _ => true
  | _ :: _, [] => false
  | a :: as, b :: bs => a == b && isAncestor as bs

/-- Two DocPaths overlap when one is an ancestor, descendant or exact match
of the other. -/
def pathsOverlap (p q : List Nat) : Bool :=
  isAncestor p q || isAncestor q p

/-- Modelled from the spec: an existing intent at path `q` with types `b`
conflicts with a candidate intent at path `p` with types `a` when the paths
overlap and the type sets are incompatible. -/
def intentConflict (p : List Nat) (a : IntentTypeSet) (q : List Nat) (b : IntentTypeSet) : Bool :=
  pathsOverlap p q && typeSetsConflict a b

/-- Modelled from the spec: the leading byte every intent-store key starts
with.  The concrete value is arbitrary in the model; only its identity
matters for the prefix check of the parser. -/
def kIntentLeadByte : Nat := 35

/-- Encode an IntentTypeSet into its intent-type byte (a 4-bit value). -/
def encodeIntentTypeSet (s : IntentTypeSet) : Nat :=
  (cond s.weakRead 1 0) + (cond s.weakWrite 2 0) +
    (cond s.strongRead 4 0) + (cond s.strongWrite 8 0)

/-- Decode a (known, i.e. below 16) intent-type byte into an IntentTypeSet. -/
def intentTypeSetOfNat (b : Nat) : IntentTypeSet :=
  ⟨b.testBit 0, b.testBit 1, b.testBit 2, b.testBit 3⟩

/-- Modelled from the spec: fixed-width (8 byte) big-endian encoding of a
hybrid time, auxiliary recursion on the number of bytes. -/
def encodeHTAux : Nat → Nat → List Nat
  | 0, _ => []
  | n + 1, ht => encodeHTAux n (ht / 256) ++ [ht % 256]

/-- Modelled from the spec: the encoded hybrid-time suffix of an intent key. -/
def encodeDocHybridTime (ht : HybridTime) : List Nat :=
  encodeHTAux 8 ht

/-- Decode a big-endian byte sequence back into a hybrid time. -/
def decodeDocHybridTime (l : List Nat) : HybridTime :=
  l.foldl (fun a b => a * 256 + b) 0

/-- Modelled from the spec: a correct encoder lays an intent key out as
lead byte, then the DocPath bytes, then the intent-type byte, then the
encoded hybrid time. -/
def makeIntentKey (path : List Nat) (types : IntentTypeSet) (ht : HybridTime) : List Nat :=
  kIntentLeadByte :: (path ++ encodeIntentTypeSet types :: encodeDocHybridTime ht)

/-- Failure taxonomy of the resolver: corruption (malformed intent data),
conflict (optimistic reject), timeout (deadline while waiting). -/
inductive ErrorKind where
  | corruption
  | conflict
  | timeout
deriving DecidableEq

/-- A failure surfaced through the resolution callback; the message is
diagnostic text only. -/
structure ResolutionError where
  kind : ErrorKind
  message : String
deriving DecidableEq

/-- Build a corruption failure. -/
def corruptionError (msg : String) : ResolutionError :=
  ⟨ErrorKind.corruption, msg⟩

/-- The decoded form of one on-disk intent record, as in the header:
DocPath slice, IntentTypeSet, and the raw doc hybrid-time slice. -/
structure ParsedIntent where
  doc_path : List Nat
  types : IntentTypeSet
  doc_ht : List Nat
deriving DecidableEq

/-- Hex digit character for a value below 16. -/
def hexChar (n : Nat) : Char :=
  if n < 10 then Char.ofNat (48 + n) else Char.ofNat (87 + n)

/-- Two-character hex rendering of one byte. -/
def hexByte (b : Nat) : String :=
  String.mk [hexChar (b / 16 % 16), hexChar (b % 16)]

/-- Raw hex rendering of a byte string. -/
def hexString (l : List Nat) : String :=
  String.join (l.map hexByte)

/-- Modelled from the spec: parse an intent key laid out as
lead byte, DocPath, intent-type byte, 8-byte hybrid time.  Rejects a wrong
lead byte, a key too short to carry the type byte and hybrid-time suffix,
and an unknown (16 or above) intent-type byte, each as a corruption
failure.  `transaction_id_source` is used for error reporting only. -/
def ParseIntentKey (intent_key transaction_id_source : List Nat) :
    Except ResolutionError ParsedIntent :=
  match intent_key with
  | [] =>
    Except.error (corruptionError
      ("empty intent key, txn " ++ hexString transaction_id_source))
  | b :: rest =>
    if b = kIntentLeadByte then
      if 9 ≤ rest.length then
        if (rest.drop (rest.length - 9)).headD 0 < 16 then
          Except.ok
            ⟨rest.take (rest.length - 9),
             intentTypeSetOfNat ((rest.drop (rest.length - 9)).headD 0),
             (rest.drop (rest.length - 9)).drop 1⟩
        else
          Except.error (corruptionError
            ("unknown intent type byte, txn " ++ hexString transaction_id_source))
      else
        Except.error (corruptionError
          ("truncated hybrid time suffix, txn " ++ hexString transaction_id_source))
    else
      Except.error (corruptionError
        ("wrong intent key lead byte, txn " ++ hexString transaction_id_source))

/-- Structural well-formedness of an intent key: correct lead byte, room for
the type byte plus the 8 hybrid-time bytes, known intent-type byte. -/
def wellFormedIntentKey : List Nat → Bool
  | [] => false
  | b :: rest =>
    decide (b = kIntentLeadByte) && decide (9 ≤ rest.length) &&
      decide ((rest.drop (rest.length - 9)).headD 0 < 16)

/-- Success value of an `Except`, if any. -/
def okValue : Except ResolutionError ParsedIntent → Option ParsedIntent
  | Except.ok p => some p
  | Except.error _ => none

/-- Whether an `Except` is a success. -/
def exceptIsOk : Except ResolutionError ParsedIntent → Bool
  | Except.ok _ => true
  | Except.error _ => false

/-- Modelled from the spec: best-effort human-readable rendering of an
intent key for diagnostics; total, falling back to a raw-hex rendering when
the key cannot be decoded. -/
def DebugIntentKeyToString (intent_key : List Nat) : String :=
  match ParseIntentKey intent_key [] with
  | Except.ok p =>
    "Intent, path " ++ hexString p.doc_path ++ ", types " ++
      toString (encodeIntentTypeSet p.types) ++ ", ht " ++ hexString p.doc_ht
  | Except.error _ => "Raw: " ++ hexString intent_key

-- Basic codec lemmas

theorem encodeIntentTypeSet_lt16 (s : IntentTypeSet) : encodeIntentTypeSet s < 16 := by
  cases s with
  | mk wr ww sr sw => cases wr <;> cases ww <;> cases sr <;> cases sw <;> decide

theorem intentTypeSetOfNat_encode (s : IntentTypeSet) :
    intentTypeSetOfNat (encodeIntentTypeSet s) = s := by
  cases s with
  | mk wr ww sr sw => cases wr <;> cases ww <;> cases sr <;> cases sw <;> decide

theorem encodeHTAux_length (n ht : Nat) : (encodeHTAux n ht).length = n := by
  induction n generalizing ht with
  | zero => rfl
  | succ n ih => simp [encodeHTAux, ih]

theorem encodeDocHybridTime_length (ht : Nat) : (encodeDocHybridTime ht).length = 8 :=
  encodeHTAux_length 8 ht

theorem decode_encodeHTAux (n ht : Nat) :
    decodeDocHybridTime (encodeHTAux n ht) = ht % 256 ^ n := by
  induction n generalizing ht with
  | zero => simp [encodeHTAux, decodeDocHybridTime, Nat.mod_one]
  | succ n ih =>
    have hfold :
        decodeDocHybridTime (encodeHTAux n (ht / 256) ++ [ht % 256]) =
          decodeDocHybridTime (encodeHTAux n (ht / 256)) * 256 + ht % 256 := by
      simp [decodeDocHybridTime, List.foldl_append]
    have hdm : ht / 256 % 256 ^ n = ht % (256 * 256 ^ n) / 256 :=
      (Nat.mod_mul_right_div_self ht 256 (256 ^ n)).symm
    have hmm : ht % 256 = ht % (256 * 256 ^ n) % 256 :=
      (Nat.mod_mod_of_dvd ht ⟨256 ^ n, rfl⟩).symm
    calc decodeDocHybridTime (encodeHTAux (n + 1) ht)
        = decodeDocHybridTime (encodeHTAux n (ht / 256)) * 256 + ht % 256 := by
          simpa [encodeHTAux] using hfold
      _ = (ht % (256 * 256 ^ n) / 256) * 256 + ht % (256 * 256 ^ n) % 256 := by
          rw [ih, hdm, ← hmm]
      _ = 256 * (ht % (256 * 256 ^ n) / 256) + ht % (256 * 256 ^ n) % 256 := by
          ring_nf
      _ = ht % (256 * 256 ^ n) := Nat.div_add_mod _ 256
      _ = ht % 256 ^ (n + 1) := by ring_nf

theorem decode_encodeDocHybridTime (ht : Nat) (h : ht < 2 ^ 64) :
    decodeDocHybridTime (encodeDocHybridTime ht) = ht := by
  have h256 : (256 : Nat) ^ 8 = 2 ^ 64 := by norm_num
  have := decode_encodeHTAux 8 ht
  rw [encodeDocHybridTime, this, h256, Nat.mod_eq_of_lt h]

-- Parser characterization lemmas

theorem parseIntentKey_isOk (key src : List Nat) :
    exceptIsOk (ParseIntentKey key src) = wellFormedIntentKey key := by
  cases key with
  | nil => rfl
  | cons b rest =>
    simp only [ParseIntentKey, wellFormedIntentKey]
    split_ifs with h1 h2 h3 <;> simp_all [exceptIsOk]

theorem parseIntentKey_error_kind (key src : List Nat) (e : ResolutionError)
    (h : ParseIntentKey key src = Except.error e) : e.kind = ErrorKind.corruption := by
  cases key with
  | nil =>
    simp only [ParseIntentKey] at h
    cases h
    rfl
  | cons b rest =>
    simp only [ParseIntentKey] at h
    by_cases hb : b = kIntentLeadByte
    · rw [if_pos hb] at h
      by_cases hlen : 9 ≤ rest.length
      · rw [if_pos hlen] at h
        by_cases hty : (rest.drop (rest.length - 9)).headD 0 < 16
        · rw [if_pos hty] at h
          cases h
        · rw [if_neg hty] at h
          cases h
          rfl
      · rw [if_neg hlen] at h
        cases h
        rfl
    · rw [if_neg hb] at h
      cases h
      rfl

theorem parseIntentKey_source_independent (key s1 s2 : List Nat) :
    okValue (ParseIntentKey key s1) = okValue (ParseIntentKey key s2) := by
  cases key with
  | nil => rfl
  | cons b rest =>
    simp only [ParseIntentKey]
    split_ifs <;> rfl

theorem parseIntentKey_roundTrip (path : List Nat) (types : IntentTypeSet)
    (ht : HybridTime) (src : List Nat) :
    ParseIntentKey (makeIntentKey path types ht) src =
      Except.ok ⟨path, types, encodeDocHybridTime ht⟩ := by
  have hrest : (path ++ encodeIntentTypeSet types :: encodeDocHybridTime ht).length =
      path.length + 9 := by
    simp [List.length_append, encodeDocHybridTime_length]
  have hdrop :
      (path ++ encodeIntentTypeSet types :: encodeDocHybridTime ht).drop path.length =
        encodeIntentTypeSet types :: encodeDocHybridTime ht :=
    List.drop_left path _
  have htake :
      (path ++ encodeIntentTypeSet types :: encodeDocHybridTime ht).take path.length =
        path :=
    List.take_left path _
  have hsub : (path ++ encodeIntentTypeSet types :: encodeDocHybridTime ht).length - 9 =
      path.length := by omega
  have hlen : 9 ≤ (path ++ encodeIntentTypeSet types :: encodeDocHybridTime ht).length := by
    omega
  simp only [makeIntentKey, ParseIntentKey]
  rw [if_pos trivial, if_pos hlen, hsub, hdrop, htake, List.headD_cons,
    if_pos (encodeIntentTypeSet_lt16 types), List.drop_one, List.tail_cons,
    intentTypeSetOfNat_encode]

-- Conflict resolver model

/-- Status of a transaction as answered by the status oracle: pending with a
priority, committed at a hybrid time, or aborted. -/
inductive TxnStatus where
  | pending (priority : Nat)
  | committed (commitTime : HybridTime)
  | aborted
deriving DecidableEq

/-- One intent record as returned by the store scan: the raw key, the owning
transaction id recovered from the value payload, and the raw byte slice the
id came from (diagnostics source for the parser). -/
structure IntentRecord where
  key : List Nat
  owner : Nat
  ownerSrc : List Nat
deriving DecidableEq

/-- Modelled from the spec: parse every scanned intent record; the first
corruption failure aborts the whole scan. -/
def scanIntents : List IntentRecord → Except ResolutionError (List (Nat × ParsedIntent))
  | [] => Except.ok []
  | r :: rs =>
    match ParseIntentKey r.key r.ownerSrc with
    | Except.error e => Except.error e
    | Except.ok p =>
      match scanIntents rs with
      | Except.error e => Except.error e
      | Except.ok ps => Except.ok ((r.owner, p) :: ps)

/-- The successfully parsed records of a store, with their owners. -/
def parsedOf (store : List IntentRecord) : List (Nat × ParsedIntent) :=
  store.filterMap fun r =>
    (okValue (ParseIntentKey r.key r.ownerSrc)).map fun p => (r.owner, p)

/-- Modelled from the spec: an existing parsed intent conflicts with the
candidate when some candidate intent overlaps its path with incompatible
type sets. -/
def conflictsWithCandidate (candidate : List (List Nat × IntentTypeSet))
    (p : ParsedIntent) : Bool :=
  candidate.any fun c => intentConflict c.1 c.2 p.doc_path p.types

/-- Self-exclusion filter: the transactional path skips intents owned by the
resolving transaction itself; the non-transactional path keeps everything. -/
def notSelf : Option Nat → Nat → Bool
  | none, _ => true
  | some id, t => !(t == id)

/-- Order-preserving deduplication, keeping the first occurrence. -/
def dedupFrom (seen : List Nat) : List Nat → List Nat
  | [] => []
  | a :: as => if a ∈ seen then dedupFrom seen as else a :: dedupFrom (a :: seen) as

/-- Deduplicate a list of owner ids. -/
def dedupOwners (l : List Nat) : List Nat :=
  dedupFrom [] l

/-- Modelled from the spec: group the surviving conflicting intents by owner,
after the conflict filter and the optional self-exclusion. -/
def ownersOfParsed (candidate : List (List Nat × IntentTypeSet))
    (parsed : List (Nat × ParsedIntent)) (selfF : Option Nat) : List Nat :=
  dedupOwners
    (((parsed.filter fun pr => conflictsWithCandidate candidate pr.2 && notSelf selfF pr.1).map
      fun pr => pr.1))

/-- The distinct conflicting owners seen by the transactional path
(self intents excluded). -/
def txnConflictOwners (candidate : List (List Nat × IntentTypeSet))
    (store : List IntentRecord) (selfId : Nat) : List Nat :=
  ownersOfParsed candidate (parsedOf store) (some selfId)

/-- The distinct conflicting owners seen by the non-transactional path
(no self exclusion). -/
def opConflictOwners (candidate : List (List Nat × IntentTypeSet))
    (store : List IntentRecord) : List Nat :=
  ownersOfParsed candidate (parsedOf store) none

/-- Accumulator of the per-owner classification: current resolution hybrid
time, conflict-counter increments, and abort requests issued. -/
structure ClassifyState where
  ht : HybridTime
  cnt : Nat
  aborts : List Nat
deriving DecidableEq

/-- Result of classifying the owner list: ran to completion, failed with an
optimistic conflict reject, or must block on the wait queue. -/
inductive ClassifyResult where
  | done (s : ClassifyState)
  | conflictReject (s : ClassifyState)
  | blocked (s : ClassifyState) (blocker : Nat)
deriving DecidableEq

/-- The owner blocks the candidate: pending with same or higher priority. -/
def isBlocking (prio : Nat) (oracle : Nat → TxnStatus) (t : Nat) : Bool :=
  match oracle t with
  | TxnStatus.pending p => decide (prio ≤ p)
  | _ => false

/-- The owner is pending with strictly lower priority than the candidate. -/
def isPendingLower (prio : Nat) (oracle : Nat → TxnStatus) (t : Nat) : Bool :=
  match oracle t with
  | TxnStatus.pending p => decide (p < prio)
  | _ => false

/-- The owner is committed with commit time above the snapshot read time, so
it forces the resolution time to advance. -/
def isAdvancing (read_time : HybridTime) (oracle : Nat → TxnStatus) (t : Nat) : Bool :=
  match oracle t with
  | TxnStatus.committed ct => decide (read_time < ct)
  | _ => false

/-- Modelled from the spec, one non-blocking classification step of the
transactional path: committed above the read time advances the resolution
floor and counts one conflict; committed at or below the read time and
aborted owners are invisible; pending with lower priority gets an abort
request. -/
def stepOwner (oracle : Nat → TxnStatus) (read_time prio : Nat) (t : Nat)
    (s : ClassifyState) : ClassifyState :=
  match oracle t with
  | TxnStatus.committed ct =>
    if read_time < ct then ⟨max s.ht ct, s.cnt + 1, s.aborts⟩ else s
  | TxnStatus.aborted => s
  | TxnStatus.pending p =>
    if p < prio then ⟨s.ht, s.cnt, s.aborts ++ [t]⟩ else s

/-- The classification fold assuming no owner blocks (reference function for
the lemmas; `classifyTxn` below is the operational version). -/
def runClassify (oracle : Nat → TxnStatus) (read_time prio : Nat) :
    List Nat → ClassifyState → ClassifyState
  | [], s => s
  | t :: rest, s => runClassify oracle read_time prio rest (stepOwner oracle read_time prio t s)

/-- Modelled from the spec: classify each distinct owner in turn.  A pending
owner with same or higher priority stops the scan: with no wait queue the
resolution fails immediately with a conflict error; with a wait queue the
resolver must block on that owner. -/
def classifyTxn (oracle : Nat → TxnStatus) (read_time prio : Nat) (hasWaitQueue : Bool) :
    List Nat → ClassifyState → ClassifyResult
  | [], s => ClassifyResult.done s
  | t :: rest, s =>
    if isBlocking prio oracle t then
      if hasWaitQueue then ClassifyResult.blocked s t else ClassifyResult.conflictReject s
    else classifyTxn oracle read_time prio hasWaitQueue rest (stepOwner oracle read_time prio t s)

/-- Lock-batch events observed during a resolution call. -/
inductive LockEv where
  | released
  | reacquired
deriving DecidableEq

/-- Whether the lock batch is held after the recorded sequence of events
(it is held when the call starts). -/
def lockHeldAfter (trace : List LockEv) : Bool :=
  trace.foldl
    (fun _ e => match e with | LockEv.released => false | LockEv.reacquired => true) true

/-- Outcome of one resolution call: the value delivered to the completion
callback, the abort requests issued, the conflict-counter increments, and
the lock-batch event trace. -/
structure ResolverOutcome where
  result : Except ResolutionError HybridTime
  aborts : List Nat
  conflictsIncremented : Nat
  lockTrace : List LockEv

/-- Modelled from the spec, the pessimistic wait/retry loop: when an owner
blocks, release the lock batch, wait on the wait queue, re-acquire the lock
batch and restart the classification with the statuses as of the next epoch.
`fuel` bounds the retries by the caller deadline; exhaustion surfaces a
timeout failure. -/
def resolveTxnLoop (owners : List Nat) (oracleSeq : Nat → Nat → TxnStatus)
    (read_time prio resolution_ht : Nat) :
    Nat → Nat → List Nat → List LockEv → ResolverOutcome
  | 0, _, acc, trace =>
    ⟨Except.error ⟨ErrorKind.timeout, "deadline elapsed while waiting"⟩, acc, 0, trace⟩
  | fuel + 1, epoch, acc, trace =>
    match classifyTxn (oracleSeq epoch) read_time prio true owners ⟨resolution_ht, 0, []⟩ with
    | ClassifyResult.done s => ⟨Except.ok s.ht, acc ++ s.aborts, s.cnt, trace⟩
    | ClassifyResult.conflictReject s =>
      ⟨Except.error ⟨ErrorKind.conflict, "conflict with higher priority transaction"⟩,
       acc ++ s.aborts, s.cnt, trace⟩
    | ClassifyResult.blocked s _ =>
      resolveTxnLoop owners oracleSeq read_time prio resolution_ht fuel (epoch + 1)
        (acc ++ s.aborts) (trace ++ [LockEv.released, LockEv.reacquired])

/-- Modelled from the spec: ResolveTransactionConflicts.  Scan and parse the
overlapping intents (corruption aborts the call), drop the candidate's own
intents, group the rest by owner, then classify.  Without a wait queue the
resolution is optimistic: a same-or-higher-priority pending owner fails the
call with a conflict error.  With a wait queue the resolver blocks and
retries, re-reading statuses each epoch. -/
def ResolveTransactionConflicts (write_batch : List (List Nat × IntentTypeSet))
    (store : List IntentRecord) (selfId : Nat) (resolution_ht read_time : HybridTime)
    (prio : Nat) (oracleSeq : Nat → Nat → TxnStatus) (hasWaitQueue : Bool)
    (fuel : Nat) : ResolverOutcome :=
  match scanIntents store with
  | Except.error e => ⟨Except.error e, [], 0, []⟩
  | Except.ok parsed =>
    let owners := ownersOfParsed write_batch parsed (some selfId)
    if hasWaitQueue then
      resolveTxnLoop owners oracleSeq read_time prio resolution_ht fuel 0 [] []
    else
      match classifyTxn (oracleSeq 0) read_time prio false owners ⟨resolution_ht, 0, []⟩ with
      | ClassifyResult.done s => ⟨Except.ok s.ht, s.aborts, s.cnt, []⟩
      | ClassifyResult.conflictReject s =>
        ⟨Except.error ⟨ErrorKind.conflict, "conflict with higher priority transaction"⟩,
         s.aborts, s.cnt, []⟩
      | ClassifyResult.blocked s _ =>
        ⟨Except.error ⟨ErrorKind.conflict, "conflict with higher priority transaction"⟩,
         s.aborts, s.cnt, []⟩

/-- Modelled from the spec, one classification step of the non-transactional
path: every committed conflicting owner contributes its commit time to the
reported maximum and counts one conflict; every pending owner gets an abort
request and counts one conflict; aborted owners are invisible. -/
def stepOwnerOp (oracle : Nat → TxnStatus) (t : Nat) (s : ClassifyState) : ClassifyState :=
  match oracle t with
  | TxnStatus.committed ct => ⟨max s.ht ct, s.cnt + 1, s.aborts⟩
  | TxnStatus.aborted => s
  | TxnStatus.pending _ => ⟨s.ht, s.cnt + 1, s.aborts ++ [t]⟩

/-- Classification fold of the non-transactional path. -/
def classifyOwnersOp (oracle : Nat → TxnStatus) :
    List Nat → ClassifyState → ClassifyState
  | [], s => s
  | t :: rest, s => classifyOwnersOp oracle rest (stepOwnerOp oracle t s)

/-- The maximal commit hybrid time among the committed owners, starting from
the caller's resolution time. -/
def maxCommitOf (oracle : Nat → TxnStatus) (resolution_ht : HybridTime)
    (owners : List Nat) : HybridTime :=
  owners.foldl
    (fun h t => match oracle t with | TxnStatus.committed ct => max h ct | _ => h)
    resolution_ht

/-- Modelled from the spec: ResolveOperationConflicts, the non-transactional
path.  Same scan machinery, no self-exclusion; success never advances a
commit record and reports the maximal commit hybrid time among conflicting
committed transactions, aborting every pending conflicting transaction. -/
def ResolveOperationConflicts (doc_ops : List (List Nat × IntentTypeSet))
    (store : List IntentRecord) (resolution_ht : HybridTime)
    (oracle : Nat → TxnStatus) : ResolverOutcome :=
  match scanIntents store with
  | Except.error e => ⟨Except.error e, [], 0, []⟩
  | Except.ok parsed =>
    let owners := ownersOfParsed doc_ops parsed none
    let s := classifyOwnersOp oracle owners ⟨resolution_ht, 0, []⟩
    ⟨Except.ok s.ht, s.aborts, s.cnt, []⟩

-- Classification lemmas

theorem stepOwner_ht_le (oracle : Nat → TxnStatus) (rt pr t : Nat) (s : ClassifyState) :
    s.ht ≤ (stepOwner oracle rt pr t s).ht := by
  unfold stepOwner
  cases oracle t with
  | committed ct =>
    by_cases h : rt < ct
    · simp [h, Nat.le_max_left]
    · simp [h]
  | aborted => simp
  | pending p =>
    by_cases h : p < pr
    · simp [h]
    · simp [h]

theorem runClassify_ht_le (oracle : Nat → TxnStatus) (rt pr : Nat) (l : List Nat)
    (s : ClassifyState) : s.ht ≤ (runClassify oracle rt pr l s).ht := by
  induction l generalizing s with
  | nil => exact Nat.le_refl _
  | cons t rest ih =>
    exact Nat.le_trans (stepOwner_ht_le oracle rt pr t s) (ih _)

theorem runClassify_ht_bound (oracle : Nat → TxnStatus) (rt pr : Nat) (l : List Nat)
    (s : ClassifyState) (t : Nat) (ht : t ∈ l) (ct : Nat)
    (hc : oracle t = TxnStatus.committed ct) (hadv : rt < ct) :
    ct ≤ (runClassify oracle rt pr l s).ht := by
  induction l generalizing s with
  | nil => cases ht
  | cons a rest ih =>
    rcases List.mem_cons.mp ht with h | h
    · subst h
      refine Nat.le_trans ?_ (runClassify_ht_le oracle rt pr rest _)
      simp [stepOwner, hc, hadv, Nat.le_max_right]
    · exact ih _ h

theorem runClassify_cnt (oracle : Nat → TxnStatus) (rt pr : Nat) (l : List Nat)
    (s : ClassifyState) :
    (runClassify oracle rt pr l s).cnt = s.cnt + l.countP (isAdvancing rt oracle) := by
  induction l generalizing s with
  | nil => simp [runClassify]
  | cons t rest ih =>
    rw [runClassify, ih, List.countP_cons]
    have hstep : (stepOwner oracle rt pr t s).cnt =
        s.cnt + (if isAdvancing rt oracle t then 1 else 0) := by
      unfold stepOwner isAdvancing
      cases oracle t with
      | committed ct =>
        by_cases h : rt < ct
        · simp [h]
        · simp [h]
      | aborted => simp
      | pending p =>
        by_cases h : p < pr
        · simp [h]
        · simp [h]
    rw [hstep]
    by_cases h : isAdvancing rt oracle t = true
    · simp [h]
      omega
    · simp at h
      simp [h]

theorem runClassify_aborts (oracle : Nat → TxnStatus) (rt pr : Nat) (l : List Nat)
    (s : ClassifyState) :
    (runClassify oracle rt pr l s).aborts =
      s.aborts ++ l.filter (isPendingLower pr oracle) := by
  induction l generalizing s with
  | nil => simp [runClassify]
  | cons t rest ih =>
    rw [runClassify, ih, List.filter_cons]
    have hstep : (stepOwner oracle rt pr t s).aborts =
        s.aborts ++ (if isPendingLower pr oracle t then [t] else []) := by
      unfold stepOwner isPendingLower
      cases oracle t with
      | committed ct =>
        by_cases h : rt < ct
        · simp [h]
        · simp [h]
      | aborted => simp
      | pending p =>
        by_cases h : p < pr
        · simp [h]
        · simp [h]
    rw [hstep]
    by_cases h : isPendingLower pr oracle t = true
    · simp [h]
    · simp at h
      simp [h]

theorem runClassify_ht_stable (oracle : Nat → TxnStatus) (rt pr : Nat) (l : List Nat)
    (s : ClassifyState) (hna : ∀ t ∈ l, isAdvancing rt oracle t = false) :
    (runClassify oracle rt pr l s).ht = s.ht := by
  induction l generalizing s with
  | nil => rfl
  | cons t rest ih =>
    have hstep : (stepOwner oracle rt pr t s).ht = s.ht := by
      have hfa := hna t (List.mem_cons_self t rest)
      unfold stepOwner
      unfold isAdvancing at hfa
      cases hor : oracle t with
      | committed ct =>
        rw [hor] at hfa
        simp at hfa
        simp [Nat.not_lt.mpr hfa]
      | aborted => simp
      | pending p =>
        by_cases h : p < pr
        · simp [h]
        · simp [h]
    rw [runClassify, ih _ (fun t htm => hna t (List.mem_cons_of_mem _ htm))]
    rw [hstep]

theorem classifyTxn_no_blockers (oracle : Nat → TxnStatus) (rt pr : Nat) (wq : Bool)
    (l : List Nat) (s : ClassifyState)
    (hnb : ∀ t ∈ l, isBlocking pr oracle t = false) :
    classifyTxn oracle rt pr wq l s = ClassifyResult.done (runClassify oracle rt pr l s) := by
  induction l generalizing s with
  | nil => rfl
  | cons t rest ih =>
    have hb := hnb t (List.mem_cons_self t rest)
    rw [classifyTxn, runClassify, hb]
    simp only [Bool.false_eq_true, if_false]
    exact ih _ (fun x hx => hnb x (List.mem_cons_of_mem _ hx))

theorem classifyTxn_done_inv (oracle : Nat → TxnStatus) (rt pr : Nat) (wq : Bool)
    (l : List Nat) (s : ClassifyState) (s' : ClassifyState)
    (h : classifyTxn oracle rt pr wq l s = ClassifyResult.done s') :
    (∀ t ∈ l, isBlocking pr oracle t = false) ∧ s' = runClassify oracle rt pr l s := by
  induction l generalizing s with
  | nil =>
    rw [classifyTxn] at h
    cases h
    constructor
    · intro t ht
      cases ht
    · rfl
  | cons t rest ih =>
    rw [classifyTxn] at h
    by_cases hb : isBlocking pr oracle t = true
    · rw [hb] at h
      simp only [if_true] at h
      cases wq <;> simp at h
    · simp only [Bool.not_eq_true] at hb
      rw [hb] at h
      simp only [Bool.false_eq_true, if_false] at h
      rcases ih _ h with ⟨hrest, hval⟩
      refine ⟨?_, by rw [runClassify]; exact hval⟩
      intro x hx
      rcases List.mem_cons.mp hx with hx | hx
      · subst hx; exact hb
      · exact hrest x hx

theorem classifyTxn_not_blocked_of_no_wq (oracle : Nat → TxnStatus) (rt pr : Nat)
    (l : List Nat) (s : ClassifyState) (s' : ClassifyState) (b : Nat) :
    classifyTxn oracle rt pr false l s ≠ ClassifyResult.blocked s' b := by
  induction l generalizing s with
  | nil => intro h; cases h
  | cons t rest ih =>
    intro h
    rw [classifyTxn] at h
    by_cases hb : isBlocking pr oracle t = true
    · rw [hb] at h
      simp at h
    · simp only [Bool.not_eq_true] at hb
      rw [hb] at h
      simp only [Bool.false_eq_true, if_false] at h
      exact ih _ h

theorem classifyTxn_reject_of_blocker (oracle : Nat → TxnStatus) (rt pr : Nat)
    (l : List Nat) (s : ClassifyState)
    (hex : ∃ t ∈ l, isBlocking pr oracle t = true) :
    ∃ s', classifyTxn oracle rt pr false l s = ClassifyResult.conflictReject s' := by
  induction l generalizing s with
  | nil =>
    rcases hex with ⟨t, ht, _⟩
    cases ht
  | cons t rest ih =>
    by_cases hb : isBlocking pr oracle t = true
    · exact ⟨s, by rw [classifyTxn, hb]; simp⟩
    · simp only [Bool.not_eq_true] at hb
      rcases hex with ⟨x, hx, hxb⟩
      rcases List.mem_cons.mp hx with hx | hx
      · subst hx
        rw [hb] at hxb
        cases hxb
      · rcases ih _ ⟨x, hx, hxb⟩ with ⟨s', hs'⟩
        refine ⟨s', ?_⟩
        rw [classifyTxn, hb]
        simpa using hs'
    
theorem stepOwner_aborts (oracle : Nat → TxnStatus) (rt pr t : Nat) (s : ClassifyState) :
    (stepOwner oracle rt pr t s).aborts =
      s.aborts ++ (if isPendingLower pr oracle t then [t] else []) := by
  unfold stepOwner isPendingLower
  cases oracle t with
  | committed ct =>
    by_cases h : rt < ct
    · simp [h]
    · simp [h]
  | aborted => simp
  | pending p =>
    by_cases h : p < pr
    · simp [h]
    · simp [h]

theorem classifyTxn_reject_aborts (oracle : Nat → TxnStatus) (rt pr : Nat)
    (l : List Nat) (s : ClassifyState) (s' : ClassifyState)
    (h : classifyTxn oracle rt pr false l s = ClassifyResult.conflictReject s') :
    ∀ x ∈ s'.aborts, x ∈ s.aborts ∨ isPendingLower pr oracle x = true := by
  induction l generalizing s with
  | nil =>
    rw [classifyTxn] at h
    cases h
  | cons t rest ih =>
    rw [classifyTxn] at h
    by_cases hb : isBlocking pr oracle t = true
    · rw [hb] at h
      simp only [if_true] at h
      cases h
      intro x hx
      exact Or.inl hx
    · simp only [Bool.not_eq_true] at hb
      rw [hb] at h
      simp only [Bool.false_eq_true, if_false] at h
      intro x hx
      rcases ih _ h x hx with hin | hlow
      · rw [stepOwner_aborts] at hin
        rcases List.mem_append.mp hin with hin | hin
        · exact Or.inl hin
        · by_cases hl : isPendingLower pr oracle t = true
          · rw [hl] at hin
            simp at hin
            subst hin
            exact Or.inr hl
          · simp only [Bool.not_eq_true] at hl
            rw [hl] at hin
            simp at hin
      · exact Or.inr hlow

-- Scan lemmas

theorem parseIntentKey_ok_of_wellFormed (key src : List Nat)
    (h : wellFormedIntentKey key = true) :
    ∃ p, ParseIntentKey key src = Except.ok p := by
  have := parseIntentKey_isOk key src
  rw [h] at this
  cases hp : ParseIntentKey key src with
  | ok p => exact ⟨p, rfl⟩
  | error e =>
    rw [hp] at this
    simp [exceptIsOk] at this

theorem parseIntentKey_error_of_malformed (key src : List Nat)
    (h : wellFormedIntentKey key = false) :
    ∃ e, ParseIntentKey key src = Except.error e ∧ e.kind = ErrorKind.corruption := by
  have := parseIntentKey_isOk key src
  rw [h] at this
  cases hp : ParseIntentKey key src with
  | ok p =>
    rw [hp] at this
    simp [exceptIsOk] at this
  | error e => exact ⟨e, rfl, parseIntentKey_error_kind key src e hp⟩

theorem scanIntents_ok_of_wellFormed (store : List IntentRecord)
    (h : ∀ r ∈ store, wellFormedIntentKey r.key = true) :
    scanIntents store = Except.ok (parsedOf store) := by
  induction store with
  | nil => rfl
  | cons r rs ih =>
    rcases parseIntentKey_ok_of_wellFormed r.key r.ownerSrc
      (h r (List.mem_cons_self r rs)) with ⟨p, hp⟩
    rw [scanIntents, hp, ih (fun x hx => h x (List.mem_cons_of_mem _ hx))]
    simp [parsedOf, List.filterMap_cons, hp, okValue]

theorem scanIntents_ok_parsedOf (store : List IntentRecord)
    (ps : List (Nat × ParsedIntent)) (h : scanIntents store = Except.ok ps) :
    ps = parsedOf store := by
  induction store generalizing ps with
  | nil =>
    rw [scanIntents] at h
    cases h
    rfl
  | cons r rs ih =>
    rw [scanIntents] at h
    cases hp : ParseIntentKey r.key r.ownerSrc with
    | error e =>
      rw [hp] at h
      cases h
    | ok p =>
      rw [hp] at h
      cases hs : scanIntents rs with
      | error e =>
        rw [hs] at h
        cases h
      | ok ps' =>
        rw [hs] at h
        cases h
        have hph : parsedOf (r :: rs) = (r.owner, p) :: parsedOf rs := by
          simp [parsedOf, List.filterMap_cons, hp, okValue]
        rw [hph, ← ih ps' hs]

theorem scanIntents_error_kind (store : List IntentRecord) (e : ResolutionError)
    (h : scanIntents store = Except.error e) : e.kind = ErrorKind.corruption := by
  induction store with
  | nil =>
    rw [scanIntents] at h
    cases h
  | cons r rs ih =>
    rw [scanIntents] at h
    cases hp : ParseIntentKey r.key r.ownerSrc with
    | error e' =>
      rw [hp] at h
      cases h
      exact parseIntentKey_error_kind r.key r.ownerSrc e hp
    | ok p =>
      rw [hp] at h
      cases hs : scanIntents rs with
      | error e' =>
        rw [hs] at h
        cases h
        exact ih hs
      | ok ps =>
        rw [hs] at h
        cases h

theorem scanIntents_error_of_malformed (store : List IntentRecord)
    (hex : ∃ r ∈ store, wellFormedIntentKey r.key = false) :
    ∃ e, scanIntents store = Except.error e ∧ e.kind = ErrorKind.corruption := by
  induction store with
  | nil =>
    rcases hex with ⟨r, hr, _⟩
    cases hr
  | cons r rs ih =>
    by_cases hr : wellFormedIntentKey r.key = true
    · rcases hex with ⟨x, hx, hxm⟩
      rcases List.mem_cons.mp hx with hx | hx
      · subst hx
        rw [hr] at hxm
        cases hxm
      · rcases ih ⟨x, hx, hxm⟩ with ⟨e, he, hek⟩
        rcases parseIntentKey_ok_of_wellFormed r.key r.ownerSrc hr with ⟨p, hp⟩
        refine ⟨e, ?_, hek⟩
        rw [scanIntents, hp, he]
    · simp only [Bool.not_eq_true] at hr
      rcases parseIntentKey_error_of_malformed r.key r.ownerSrc hr with ⟨e, he, hek⟩
      refine ⟨e, ?_, hek⟩
      rw [scanIntents, he]

-- Dedup membership

theorem mem_dedupFrom (a : Nat) (seen l : List Nat) :
    a ∈ dedupFrom seen l ↔ a ∈ l ∧ a ∉ seen := by
  induction l generalizing seen with
  | nil => simp [dedupFrom]
  | cons b bs ih =>
    rw [dedupFrom]
    by_cases hb : b ∈ seen
    · rw [if_pos hb, ih]
      constructor
      · rintro ⟨hm, hs⟩
        exact ⟨List.mem_cons_of_mem _ hm, hs⟩
      · rintro ⟨hm, hs⟩
        rcases List.mem_cons.mp hm with hm | hm
        · subst hm
          exact absurd hb hs
        · exact ⟨hm, hs⟩
    · rw [if_neg hb]
      by_cases hab : a = b
      · subst hab
        simp [hb]
      · constructor
        · intro hm
          rcases List.mem_cons.mp hm with hm | hm
          · exact absurd hm hab
          · rcases (ih (b :: seen)).mp hm with ⟨h1, h2⟩
            refine ⟨List.mem_cons_of_mem _ h1, fun hs => h2 (List.mem_cons_of_mem _ hs)⟩
        · rintro ⟨hm, hs⟩
          rcases List.mem_cons.mp hm with hm | hm
          · exact absurd hm hab
          · refine List.mem_cons_of_mem _ ((ih (b :: seen)).mpr ⟨hm, ?_⟩)
            intro hx
            rcases List.mem_cons.mp hx with hx | hx
            · exact hab hx
            · exact hs hx

theorem mem_dedupOwners (a : Nat) (l : List Nat) : a ∈ dedupOwners l ↔ a ∈ l := by
  rw [dedupOwners, mem_dedupFrom]
  simp

theorem mem_ownersOfParsed (t : Nat) (candidate : List (List Nat × IntentTypeSet))
    (parsed : List (Nat × ParsedIntent)) (selfF : Option Nat) :
    t ∈ ownersOfParsed candidate parsed selfF ↔
      ∃ p, (t, p) ∈ parsed ∧ conflictsWithCandidate candidate p = true ∧
        notSelf selfF t = true := by
  rw [ownersOfParsed, mem_dedupOwners]
  simp only [List.mem_map, List.mem_filter]
  constructor
  · rintro ⟨⟨o, p⟩, ⟨hm, hf⟩, ho⟩
    simp at ho
    subst ho
    simp at hf
    exact ⟨p, hm, hf⟩
  · rintro ⟨p, hm, hc, hs⟩
    exact ⟨(t, p), ⟨hm, by simp [hc, hs]⟩, rfl⟩

-- Wait-loop lemmas

theorem lockHeldAfter_append_wait (trace : List LockEv) :
    lockHeldAfter (trace ++ [LockEv.released, LockEv.reacquired]) = true := by
  simp [lockHeldAfter, List.foldl_append]

theorem resolveTxnLoop_lock (owners : List Nat) (oracleSeq : Nat → Nat → TxnStatus)
    (rt pr res : Nat) (fuel epoch : Nat) (acc : List Nat) (trace : List LockEv)
    (h : lockHeldAfter trace = true) :
    lockHeldAfter
      (resolveTxnLoop owners oracleSeq rt pr res fuel epoch acc trace).lockTrace = true := by
  induction fuel generalizing epoch acc trace with
  | zero => exact h
  | succ fuel ih =>
    rw [resolveTxnLoop]
    cases classifyTxn (oracleSeq epoch) rt pr true owners ⟨res, 0, []⟩ with
    | done s => exact h
    | conflictReject s => exact h
    | blocked s b => exact ih _ _ _ (lockHeldAfter_append_wait trace)

theorem resolveTxnLoop_ok_inv (owners : List Nat) (oracle : Nat → TxnStatus)
    (rt pr res : Nat) (fuel epoch : Nat) (acc : List Nat) (trace : List LockEv)
    (h' : HybridTime)
    (h : (resolveTxnLoop owners (fun _ => oracle) rt pr res fuel epoch acc trace).result =
      Except.ok h') :
    ∃ s', classifyTxn oracle rt pr true owners ⟨res, 0, []⟩ = ClassifyResult.done s' ∧
      h' = s'.ht ∧
      (resolveTxnLoop owners (fun _ => oracle) rt pr res fuel epoch acc
        trace).conflictsIncremented = s'.cnt := by
  induction fuel generalizing epoch acc trace with
  | zero =>
    rw [resolveTxnLoop] at h
    cases h
  | succ fuel ih =>
    obtain ⟨c, hc⟩ : ∃ c, classifyTxn oracle rt pr true owners ⟨res, 0, []⟩ = c := ⟨_, rfl⟩
    cases c with
    | done s =>
      have hstep : resolveTxnLoop owners (fun _ => oracle) rt pr res (fuel + 1) epoch acc trace =
          ⟨Except.ok s.ht, acc ++ s.aborts, s.cnt, trace⟩ := by
        rw [resolveTxnLoop, hc]
      rw [hstep] at h ⊢
      simp at h
      exact ⟨s, hc, h.symm, rfl⟩
    | conflictReject s =>
      have hstep : resolveTxnLoop owners (fun _ => oracle) rt pr res (fuel + 1) epoch acc trace =
          ⟨Except.error ⟨ErrorKind.conflict, "conflict with higher priority transaction"⟩,
           acc ++ s.aborts, s.cnt, trace⟩ := by
        rw [resolveTxnLoop, hc]
      rw [hstep] at h
      simp at h
    | blocked s b =>
      have hstep : resolveTxnLoop owners (fun _ => oracle) rt pr res (fuel + 1) epoch acc trace =
          resolveTxnLoop owners (fun _ => oracle) rt pr res fuel (epoch + 1) (acc ++ s.aborts)
            (trace ++ [LockEv.released, LockEv.reacquired]) := by
        rw [resolveTxnLoop, hc]
      rw [hstep] at h ⊢
      exact ih _ _ _ h

theorem resolveTxnLoop_no_blockers (owners : List Nat) (oracle : Nat → TxnStatus)
    (rt pr res : Nat) (fuel epoch : Nat) (acc : List Nat) (trace : List LockEv)
    (hnb : ∀ t ∈ owners, isBlocking pr oracle t = false) :
    (resolveTxnLoop owners (fun _ => oracle) rt pr res (fuel + 1) epoch acc trace).result =
      Except.ok (runClassify oracle rt pr owners ⟨res, 0, []⟩).ht := by
  rw [resolveTxnLoop, classifyTxn_no_blockers oracle rt pr true owners ⟨res, 0, []⟩ hnb]

-- Non-transactional classification lemmas

theorem maxCommitOf_cons (oracle : Nat → TxnStatus) (init t : Nat) (rest : List Nat) :
    maxCommitOf oracle init (t :: rest) =
      maxCommitOf oracle
        (match oracle t with | TxnStatus.committed ct => max init ct | _ => init) rest := by
  cases h : oracle t <;> simp [maxCommitOf, List.foldl_cons, h]

theorem classifyOwnersOp_ht (oracle : Nat → TxnStatus) (l : List Nat) (s : ClassifyState) :
    (classifyOwnersOp oracle l s).ht = maxCommitOf oracle s.ht l := by
  induction l generalizing s with
  | nil => rfl
  | cons t rest ih =>
    rw [classifyOwnersOp, ih, maxCommitOf_cons]
    cases h : oracle t <;> simp [stepOwnerOp, h]

theorem maxCommitOf_init_le (oracle : Nat → TxnStatus) (init : Nat) (l : List Nat) :
    init ≤ maxCommitOf oracle init l := by
  induction l generalizing init with
  | nil => exact Nat.le_refl _
  | cons t rest ih =>
    rw [maxCommitOf, List.foldl_cons, ← maxCommitOf]
    cases oracle t with
    | committed ct => exact Nat.le_trans (Nat.le_max_left _ _) (ih _)
    | aborted => exact ih _
    | pending p => exact ih _

theorem maxCommitOf_bound (oracle : Nat → TxnStatus) (init : Nat) (l : List Nat)
    (t : Nat) (htm : t ∈ l) (ct : Nat) (hc : oracle t = TxnStatus.committed ct) :
    ct ≤ maxCommitOf oracle init l := by
  induction l generalizing init with
  | nil => cases htm
  | cons a rest ih =>
    rw [maxCommitOf_cons]
    rcases List.mem_cons.mp htm with h | h
    · subst h
      rw [hc]
      exact Nat.le_trans (Nat.le_max_right init ct) (maxCommitOf_init_le oracle _ rest)
    · cases oracle a <;> exact ih _ h

-- Top-level equation helpers

theorem RTC_scan_error (wb : List (List Nat × IntentTypeSet)) (store : List IntentRecord)
    (selfId res rt pr fuel : Nat) (oSeq : Nat → Nat → TxnStatus) (wq : Bool)
    (e : ResolutionError) (hs : scanIntents store = Except.error e) :
    ResolveTransactionConflicts wb store selfId res rt pr oSeq wq fuel =
      ⟨Except.error e, [], 0, []⟩ := by
  simp [ResolveTransactionConflicts, hs]

theorem RTC_wq (wb : List (List Nat × IntentTypeSet)) (store : List IntentRecord)
    (selfId res rt pr fuel : Nat) (oSeq : Nat → Nat → TxnStatus)
    (ps : List (Nat × ParsedIntent)) (hs : scanIntents store = Except.ok ps) :
    ResolveTransactionConflicts wb store selfId res rt pr oSeq true fuel =
      resolveTxnLoop (ownersOfParsed wb ps (some selfId)) oSeq rt pr res fuel 0 [] [] := by
  simp [ResolveTransactionConflicts, hs]

theorem RTC_opt_done (wb : List (List Nat × IntentTypeSet)) (store : List IntentRecord)
    (selfId res rt pr fuel : Nat) (oSeq : Nat → Nat → TxnStatus)
    (ps : List (Nat × ParsedIntent)) (s : ClassifyState)
    (hs : scanIntents store = Except.ok ps)
    (hc : classifyTxn (oSeq 0) rt pr false (ownersOfParsed wb ps (some selfId)) ⟨res, 0, []⟩ =
      ClassifyResult.done s) :
    ResolveTransactionConflicts wb store selfId res rt pr oSeq false fuel =
      ⟨Except.ok s.ht, s.aborts, s.cnt, []⟩ := by
  simp only [ResolveTransactionConflicts, hs]
  rw [hc]
  simp

theorem RTC_opt_reject (wb : List (List Nat × IntentTypeSet)) (store : List IntentRecord)
    (selfId res rt pr fuel : Nat) (oSeq : Nat → Nat → TxnStatus)
    (ps : List (Nat × ParsedIntent)) (s : ClassifyState)
    (hs : scanIntents store = Except.ok ps)
    (hc : classifyTxn (oSeq 0) rt pr false (ownersOfParsed wb ps (some selfId)) ⟨res, 0, []⟩ =
      ClassifyResult.conflictReject s) :
    ResolveTransactionConflicts wb store selfId res rt pr oSeq false fuel =
      ⟨Except.error ⟨ErrorKind.conflict, "conflict with higher priority transaction"⟩,
       s.aborts, s.cnt, []⟩ := by
  simp only [ResolveTransactionConflicts, hs]
  rw [hc]
  simp

theorem ROC_scan_error (ops : List (List Nat × IntentTypeSet)) (store : List IntentRecord)
    (res : Nat) (oracle : Nat → TxnStatus) (e : ResolutionError)
    (hs : scanIntents store = Except.error e) :
    ResolveOperationConflicts ops store res oracle = ⟨Except.error e, [], 0, []⟩ := by
  simp [ResolveOperationConflicts, hs]

theorem ROC_ok (ops : List (List Nat × IntentTypeSet)) (store : List IntentRecord)
    (res : Nat) (oracle : Nat → TxnStatus) (ps : List (Nat × ParsedIntent))
    (hs : scanIntents store = Except.ok ps) :
    ResolveOperationConflicts ops store res oracle =
      ⟨Except.ok (classifyOwnersOp oracle (ownersOfParsed ops ps none) ⟨res, 0, []⟩).ht,
       (classifyOwnersOp oracle (ownersOfParsed ops ps none) ⟨res, 0, []⟩).aborts,
       (classifyOwnersOp oracle (ownersOfParsed ops ps none) ⟨res, 0, []⟩).cnt, []⟩ := by
  simp [ResolveOperationConflicts, hs]

-- Small status lemmas

theorem isBlocking_not_pendingLower (pr : Nat) (oracle : Nat → TxnStatus) (t : Nat)
    (h : isBlocking pr oracle t = true) : isPendingLower pr oracle t = false := by
  unfold isBlocking at h
  unfold isPendingLower
  cases ho : oracle t with
  | pending p =>
    rw [ho] at h
    simp at h
    simp
    omega
  | committed ct => simp
  | aborted => simp

theorem isPendingLower_not_blocking (pr : Nat) (oracle : Nat → TxnStatus) (t : Nat)
    (h : isPendingLower pr oracle t = true) : isBlocking pr oracle t = false := by
  unfold isPendingLower at h
  unfold isBlocking
  cases ho : oracle t with
  | pending p =>
    rw [ho] at h
    simp at h
    simp
    omega
  | committed ct => simp
  | aborted => simp

theorem isPendingLower_not_advancing (rt pr : Nat) (oracle : Nat → TxnStatus) (t : Nat)
    (h : isPendingLower pr oracle t = true) : isAdvancing rt oracle t = false := by
  unfold isPendingLower at h
  unfold isAdvancing
  cases ho : oracle t with
  | pending p => simp
  | committed ct =>
    rw [ho] at h
    cases h
  | aborted => simp

-- Claim theorems

/-- C7: the intent-conflict relation is symmetric; two sets consisting only
of read types never conflict; and a set containing a write type conflicts
with every non-empty set over the same or an overlapping path. -/
theorem intent_type_set_conflict_laws :
    (∀ (p : List Nat) (a : IntentTypeSet) (q : List Nat) (b : IntentTypeSet),
      intentConflict p a q b = intentConflict q b p a) ∧
    (∀ a b : IntentTypeSet, a.hasWrite = false → b.hasWrite = false →
      typeSetsConflict a b = false) ∧
    (∀ (p q : List Nat) (a b : IntentTypeSet), a.hasWrite = true → b.hasAny = true →
      pathsOverlap p q = true → intentConflict p a q b = true) := by
  refine ⟨?_, ?_, ?_⟩
  · intro p a q b
    rw [intentConflict, intentConflict, pathsOverlap, pathsOverlap,
      Bool.or_comm (isAncestor p q), typeSetsConflict, typeSetsConflict,
      Bool.and_comm a.hasAny, Bool.or_comm a.hasWrite]
  · intro a b ha hb
    simp [typeSetsConflict, ha, hb]
  · intro p q a b hw hb hov
    have hany : a.hasAny = true := by
      cases a with
      | mk wr ww sr sw =>
        simp [IntentTypeSet.hasWrite] at hw
        simp [IntentTypeSet.hasAny]
        tauto
    simp [intentConflict, hov, typeSetsConflict, hany, hb, hw]

/-- Witness for C7 at concrete type sets and paths. -/
theorem intent_type_set_conflict_laws_witness :
    intentConflict [1] ⟨false, true, false, false⟩ [1, 2] ⟨true, false, false, false⟩ =
      intentConflict [1, 2] ⟨true, false, false, false⟩ [1] ⟨false, true, false, false⟩ ∧
    typeSetsConflict ⟨true, false, false, false⟩ ⟨false, false, true, false⟩ = false ∧
    intentConflict [1] ⟨false, true, false, false⟩ [1, 2] ⟨true, false, false, false⟩ = true :=
  ⟨intent_type_set_conflict_laws.1 [1] ⟨false, true, false, false⟩ [1, 2]
      ⟨true, false, false, false⟩,
   intent_type_set_conflict_laws.2.1 ⟨true, false, false, false⟩ ⟨false, false, true, false⟩
      (by decide) (by decide),
   intent_type_set_conflict_laws.2.2 [1] [1, 2] ⟨false, true, false, false⟩
      ⟨true, false, false, false⟩ (by decide) (by decide) (by decide)⟩

/-- C5: ParseIntentKey is a left inverse of the intent-key encoder: parsing
a key laid out as lead byte, DocPath, intent-type byte, encoded hybrid time
recovers exactly that path, those types, and (decoding the hybrid-time
slice) that hybrid time, for any diagnostics slice. -/
theorem parse_intent_key_round_trip (path : List Nat) (types : IntentTypeSet)
    (ht : HybridTime) (src : List Nat) (hht : ht < 2 ^ 64) :
    ParseIntentKey (makeIntentKey path types ht) src =
      Except.ok ⟨path, types, encodeDocHybridTime ht⟩ ∧
    decodeDocHybridTime (encodeDocHybridTime ht) = ht :=
  ⟨parseIntentKey_roundTrip path types ht src, decode_encodeDocHybridTime ht hht⟩

/-- Witness for C5 at a concrete path, type set, hybrid time and an
oversized diagnostics slice. -/
theorem parse_intent_key_round_trip_witness :
    (42 : Nat) < 2 ^ 64 ∧
    (ParseIntentKey (makeIntentKey [1, 2] ⟨false, false, false, true⟩ 42) [7, 7, 7] =
      Except.ok ⟨[1, 2], ⟨false, false, false, true⟩, encodeDocHybridTime 42⟩ ∧
    decodeDocHybridTime (encodeDocHybridTime 42) = 42) :=
  ⟨by decide,
   parse_intent_key_round_trip [1, 2] ⟨false, false, false, true⟩ 42 [7, 7, 7] (by decide)⟩

/-- C9: DebugIntentKeyToString is a total string rendering; on any input
whose intent key cannot be decoded it falls back to the raw-hex rendering
instead of failing. -/
theorem debug_intent_key_total_fallback (key : List Nat)
    (h : wellFormedIntentKey key = false) :
    DebugIntentKeyToString key = "Raw: " ++ hexString key := by
  rcases parseIntentKey_error_of_malformed key [] h with ⟨e, he, _⟩
  rw [DebugIntentKeyToString, he]

/-- Witness for C9 at a concrete malformed key. -/
theorem debug_intent_key_total_fallback_witness :
    wellFormedIntentKey [0, 1] = false ∧
    DebugIntentKeyToString [0, 1] = "Raw: " ++ hexString [0, 1] :=
  ⟨by decide, debug_intent_key_total_fallback [0, 1] (by decide)⟩

/-- C10: the parse result of an intent key depends only on the key: for any
two transaction-id source slices (of any length) the success/failure
verdict and the ParsedIntent produced on success coincide, and success is
exactly structural well-formedness of the key, so the source slice can
never make the parse of a well-formed key fail. -/
theorem parse_intent_key_source_noninterference (key s1 s2 : List Nat) :
    okValue (ParseIntentKey key s1) = okValue (ParseIntentKey key s2) ∧
    exceptIsOk (ParseIntentKey key s1) = wellFormedIntentKey key ∧
    exceptIsOk (ParseIntentKey key s2) = wellFormedIntentKey key :=
  ⟨parseIntentKey_source_independent key s1 s2,
   parseIntentKey_isOk key s1, parseIntentKey_isOk key s2⟩

/-- C6: every malformed intent key (wrong lead byte, truncated hybrid-time
suffix, unknown intent-type byte, i.e. any structurally ill-formed key) is
rejected by ParseIntentKey with a corruption-kind failure rather than a
silently wrong ParsedIntent, and a malformed key encountered during a
resolution scan aborts the entire resolution call (both entry points) with
that corruption failure. -/
theorem malformed_intent_key_corruption :
    (∀ key src : List Nat, wellFormedIntentKey key = false →
      ∃ e, ParseIntentKey key src = Except.error e ∧ e.kind = ErrorKind.corruption) ∧
    (∀ (wb : List (List Nat × IntentTypeSet)) (store : List IntentRecord)
        (selfId res rt pr fuel : Nat) (oSeq : Nat → Nat → TxnStatus) (wq : Bool),
      (∃ r ∈ store, wellFormedIntentKey r.key = false) →
      ∃ e, (ResolveTransactionConflicts wb store selfId res rt pr oSeq wq fuel).result =
          Except.error e ∧ e.kind = ErrorKind.corruption) ∧
    (∀ (ops : List (List Nat × IntentTypeSet)) (store : List IntentRecord)
        (res : Nat) (oracle : Nat → TxnStatus),
      (∃ r ∈ store, wellFormedIntentKey r.key = false) →
      ∃ e, (ResolveOperationConflicts ops store res oracle).result =
          Except.error e ∧ e.kind = ErrorKind.corruption) := by
  refine ⟨parseIntentKey_error_of_malformed, ?_, ?_⟩
  · intro wb store selfId res rt pr fuel oSeq wq hex
    rcases scanIntents_error_of_malformed store hex with ⟨e, he, hk⟩
    exact ⟨e, by rw [RTC_scan_error wb store selfId res rt pr fuel oSeq wq e he], hk⟩
  · intro ops store res oracle hex
    rcases scanIntents_error_of_malformed store hex with ⟨e, he, hk⟩
    exact ⟨e, by rw [ROC_scan_error ops store res oracle e he], hk⟩

/-- Witness for C6 at a concrete malformed key and a store containing it. -/
theorem malformed_intent_key_corruption_witness :
    (∃ e, ParseIntentKey [9] [1, 2, 3] = Except.error e ∧ e.kind = ErrorKind.corruption) ∧
    (∃ e, (ResolveTransactionConflicts [] [⟨[9], 4, [4]⟩] 0 0 0 0
        (fun _ _ => TxnStatus.aborted) false 1).result = Except.error e ∧
      e.kind = ErrorKind.corruption) ∧
    (∃ e, (ResolveOperationConflicts [] [⟨[9], 4, [4]⟩] 0
        (fun _ => TxnStatus.aborted)).result = Except.error e ∧
      e.kind = ErrorKind.corruption) :=
  ⟨malformed_intent_key_corruption.1 [9] [1, 2, 3] (by decide),
   malformed_intent_key_corruption.2.1 [] [⟨[9], 4, [4]⟩] 0 0 0 0 1
     (fun _ _ => TxnStatus.aborted) false ⟨⟨[9], 4, [4]⟩, by decide⟩,
   malformed_intent_key_corruption.2.2 [] [⟨[9], 4, [4]⟩] 0
     (fun _ => TxnStatus.aborted) ⟨⟨[9], 4, [4]⟩, by decide⟩⟩

/-- C1: with resolution time at or above the read time, a conflicting
transaction committed above the read time never fails the resolution: when
the call succeeds the delivered hybrid time is at least every such commit
time and the conflict counter is incremented exactly once per distinct such
transaction (independent of how many overlapping intents it left, since the
owners are deduplicated); and whenever no conflicting owner is a
same-or-higher-priority pending transaction, the call does succeed, in
either mode. -/
theorem resolve_txn_committed_advance
    (write_batch : List (List Nat × IntentTypeSet)) (store : List IntentRecord)
    (selfId resolution_ht read_time prio fuel : Nat) (oracle : Nat → TxnStatus)
    (hasWQ : Bool) (hrt : read_time ≤ resolution_ht) (hfuel : 0 < fuel) :
    (∀ h', (ResolveTransactionConflicts write_batch store selfId resolution_ht read_time
        prio (fun _ => oracle) hasWQ fuel).result = Except.ok h' →
      (∀ t ∈ txnConflictOwners write_batch store selfId, ∀ ct,
        oracle t = TxnStatus.committed ct → read_time < ct → ct ≤ h') ∧
      (ResolveTransactionConflicts write_batch store selfId resolution_ht read_time
        prio (fun _ => oracle) hasWQ fuel).conflictsIncremented =
        (txnConflictOwners write_batch store selfId).countP (isAdvancing read_time oracle)) ∧
    ((∀ r ∈ store, wellFormedIntentKey r.key = true) →
     (∀ t ∈ txnConflictOwners write_batch store selfId, isBlocking prio oracle t = false) →
     ∃ h', (ResolveTransactionConflicts write_batch store selfId resolution_ht read_time
        prio (fun _ => oracle) hasWQ fuel).result = Except.ok h') := by
  constructor
  · intro h' hok
    obtain ⟨sc, hs⟩ : ∃ c, scanIntents store = c := ⟨_, rfl⟩
    cases sc with
    | error e =>
      rw [RTC_scan_error write_batch store selfId resolution_ht read_time prio fuel
        (fun _ => oracle) hasWQ e hs] at hok
      simp at hok
    | ok ps =>
      have hps := scanIntents_ok_parsedOf store ps hs
      have howners : ownersOfParsed write_batch ps (some selfId) =
          txnConflictOwners write_batch store selfId := by
        rw [hps]
        rfl
      cases hasWQ with
      | false =>
        obtain ⟨c, hc⟩ : ∃ c, classifyTxn oracle read_time prio false
            (ownersOfParsed write_batch ps (some selfId)) ⟨resolution_ht, 0, []⟩ = c :=
          ⟨_, rfl⟩
        cases c with
        | done s =>
          rw [RTC_opt_done write_batch store selfId resolution_ht read_time prio fuel
            (fun _ => oracle) ps s hs hc] at hok ⊢
          simp at hok
          rcases classifyTxn_done_inv oracle read_time prio false _ _ s hc with ⟨hnb, hval⟩
          subst hval
          constructor
          · intro t htm ct hct hadv
            rw [← hok]
            exact runClassify_ht_bound oracle read_time prio _ _ t (howners.symm ▸ htm)
              ct hct hadv
          · simp [runClassify_cnt, howners]
        | conflictReject s =>
          rw [RTC_opt_reject write_batch store selfId resolution_ht read_time prio fuel
            (fun _ => oracle) ps s hs hc] at hok
          simp at hok
        | blocked s b =>
          exact absurd hc (classifyTxn_not_blocked_of_no_wq oracle read_time prio _ _ s b)
      | true =>
        rw [RTC_wq write_batch store selfId resolution_ht read_time prio fuel
          (fun _ => oracle) ps hs] at hok ⊢
        rcases resolveTxnLoop_ok_inv _ oracle read_time prio resolution_ht fuel 0 [] [] h'
          hok with ⟨s', hdone, hh', hcnt⟩
        rcases classifyTxn_done_inv oracle read_time prio true _ _ s' hdone with ⟨hnb, hval⟩
        constructor
        · intro t htm ct hct hadv
          rw [hh', hval]
          exact runClassify_ht_bound oracle read_time prio _ _ t (howners.symm ▸ htm)
            ct hct hadv
        · rw [hcnt, hval]
          simp [runClassify_cnt, howners]
  · intro hwf hnb
    have hs := scanIntents_ok_of_wellFormed store hwf
    have howners : ownersOfParsed write_batch (parsedOf store) (some selfId) =
        txnConflictOwners write_batch store selfId := rfl
    cases hasWQ with
    | false =>
      have hc := classifyTxn_no_blockers oracle read_time prio false
        (ownersOfParsed write_batch (parsedOf store) (some selfId)) ⟨resolution_ht, 0, []⟩
        (by rw [howners]; exact hnb)
      exact ⟨_, by rw [RTC_opt_done write_batch store selfId resolution_ht read_time prio
        fuel (fun _ => oracle) (parsedOf store) _ hs hc]⟩
    | true =>
      obtain ⟨f, rfl⟩ : ∃ f, fuel = f + 1 := ⟨fuel - 1, by omega⟩
      rw [RTC_wq write_batch store selfId resolution_ht read_time prio (f + 1)
        (fun _ => oracle) (parsedOf store) hs]
      exact ⟨_, resolveTxnLoop_no_blockers _ oracle read_time prio resolution_ht f 0 [] []
        (by rw [howners]; exact hnb)⟩

-- Concrete fixtures for witnesses and the counterexample

/-- A strong-write intent type set. -/
def cSW : IntentTypeSet := ⟨false, false, false, true⟩

/-- Candidate write batch touching path 1 with a strong write. -/
def cCand : List (List Nat × IntentTypeSet) := [([1], cSW)]

/-- Store with two intents of the same committed transaction 9. -/
def cStoreC : List IntentRecord :=
  [⟨makeIntentKey [1] cSW 5, 9, [9]⟩, ⟨makeIntentKey [1, 2] cSW 6, 9, [9]⟩]

/-- Oracle: transaction 9 committed at hybrid time 100. -/
def cOracleC : Nat → TxnStatus :=
  fun t => if t = 9 then TxnStatus.committed 100 else TxnStatus.aborted

/-- Store with one intent of pending transaction 7. -/
def cStoreP : List IntentRecord := [⟨makeIntentKey [1] cSW 11, 7, [7]⟩]

/-- Oracle: transaction 7 pending with priority 5. -/
def cOracleP : Nat → TxnStatus :=
  fun t => if t = 7 then TxnStatus.pending 5 else TxnStatus.aborted

/-- Store with intents of transactions 7 and 8 on the same path. -/
def cStoreL : List IntentRecord :=
  [⟨makeIntentKey [1] cSW 5, 7, [7]⟩, ⟨makeIntentKey [1] cSW 6, 8, [8]⟩]

/-- Oracle: transaction 7 pending priority 9, transaction 8 pending
priority 1. -/
def cOracleL : Nat → TxnStatus :=
  fun t =>
    if t = 7 then TxnStatus.pending 9
    else if t = 8 then TxnStatus.pending 1
    else TxnStatus.aborted

/-- Store with one intent of pending transaction 7 (lower priority). -/
def cStoreA : List IntentRecord := [⟨makeIntentKey [1] cSW 12, 7, [7]⟩]

/-- Oracle: transaction 7 pending with priority 3. -/
def cOracleA : Nat → TxnStatus :=
  fun t => if t = 7 then TxnStatus.pending 3 else TxnStatus.aborted

/-- Store with one intent of committed transaction 3. -/
def cStoreO : List IntentRecord := [⟨makeIntentKey [1] cSW 13, 3, [3]⟩]

/-- Oracle: transaction 3 committed at hybrid time 80. -/
def cOracleO : Nat → TxnStatus :=
  fun t => if t = 3 then TxnStatus.committed 80 else TxnStatus.aborted

/-- Store with one intent of transaction 7, used for the wait-queue
scenario. -/
def cStoreW : List IntentRecord := [⟨makeIntentKey [1] cSW 14, 7, [7]⟩]

/-- Epoch-indexed oracle: transaction 7 is pending with priority 9 at epoch
0 and committed at 40 from epoch 1 on (it resolves while being waited
upon). -/
def cOracleSeqW : Nat → Nat → TxnStatus :=
  fun ep _ => if ep = 0 then TxnStatus.pending 9 else TxnStatus.committed 40

/-- C1 witness: a committed transaction at 100 with two overlapping intents,
read time 50, resolution time 60, optimistic mode: the call succeeds. -/
theorem resolve_txn_committed_advance_witness :
    ∃ h', (ResolveTransactionConflicts cCand cStoreC 0 60 50 5 (fun _ => cOracleC)
      false 1).result = Except.ok h' :=
  (resolve_txn_committed_advance cCand cStoreC 0 60 50 5 1 cOracleC false
    (by decide) (by decide)).2 (by decide) (by decide)

/-- C2: in optimistic mode (no wait queue), a conflicting pending
transaction with same or higher priority fails the resolution with a
conflict error distinguishable from corruption, and no abort request is
issued against any such transaction. -/
theorem resolve_txn_optimistic_reject
    (write_batch : List (List Nat × IntentTypeSet)) (store : List IntentRecord)
    (selfId res rt prio fuel : Nat) (oracle : Nat → TxnStatus)
    (hwf : ∀ r ∈ store, wellFormedIntentKey r.key = true)
    (hex : ∃ t ∈ txnConflictOwners write_batch store selfId,
      isBlocking prio oracle t = true) :
    (∃ e, (ResolveTransactionConflicts write_batch store selfId res rt prio
        (fun _ => oracle) false fuel).result = Except.error e ∧
      e.kind = ErrorKind.conflict ∧ e.kind ≠ ErrorKind.corruption) ∧
    (∀ t, isBlocking prio oracle t = true →
      t ∉ (ResolveTransactionConflicts write_batch store selfId res rt prio
        (fun _ => oracle) false fuel).aborts) := by
  have hs := scanIntents_ok_of_wellFormed store hwf
  rcases classifyTxn_reject_of_blocker oracle rt prio
    (ownersOfParsed write_batch (parsedOf store) (some selfId)) ⟨res, 0, []⟩ hex
    with ⟨s', hc⟩
  have hrtc := RTC_opt_reject write_batch store selfId res rt prio fuel
    (fun _ => oracle) (parsedOf store) s' hs hc
  constructor
  · refine ⟨⟨ErrorKind.conflict, "conflict with higher priority transaction"⟩, ?_, rfl, ?_⟩
    · rw [hrtc]
    · intro hk
      cases hk
  · intro t hb hmem
    rw [hrtc] at hmem
    simp only [] at hmem
    rcases classifyTxn_reject_aborts oracle rt prio _ _ s' hc t hmem with hin | hlow
    · simp at hin
    · rw [isBlocking_not_pendingLower prio oracle t hb] at hlow
      cases hlow

/-- C2 witness at the spec example: candidate priority 3 against an existing
pending transaction of priority 5. -/
theorem resolve_txn_optimistic_reject_witness :
    (∃ e, (ResolveTransactionConflicts cCand cStoreP 0 60 50 3 (fun _ => cOracleP)
        false 1).result = Except.error e ∧
      e.kind = ErrorKind.conflict ∧ e.kind ≠ ErrorKind.corruption) ∧
    (∀ t, isBlocking 3 cOracleP t = true →
      t ∉ (ResolveTransactionConflicts cCand cStoreP 0 60 50 3 (fun _ => cOracleP)
        false 1).aborts) :=
  resolve_txn_optimistic_reject cCand cStoreP 0 60 50 3 1 cOracleP (by decide) (by decide)

/-- C3 counterexample: candidate priority 5 in optimistic mode; the owner
list is transaction 7 (pending, priority 9) then transaction 8 (pending,
priority 1).  Transaction 8 is a conflicting pending transaction of
strictly lower priority, yet the call (which fails immediately on
transaction 7) issues no abort request at all, refuting the claim that
every such transaction receives an abort request. -/
theorem resolve_txn_abort_lower_counterexample :
    8 ∈ txnConflictOwners cCand cStoreL 0 ∧
    isPendingLower 5 cOracleL 8 = true ∧
    (ResolveTransactionConflicts cCand cStoreL 0 60 50 5 (fun _ => cOracleL)
      false 1).aborts = [] := by
  decide

/-- C3 amended: in optimistic mode, when every conflicting transaction is
pending with strictly lower priority than the candidate, each of them
receives an abort request and the resolution returns success (the original
resolution time) without blocking. -/
theorem resolve_txn_abort_lower_amended
    (write_batch : List (List Nat × IntentTypeSet)) (store : List IntentRecord)
    (selfId res rt prio fuel : Nat) (oracle : Nat → TxnStatus)
    (hwf : ∀ r ∈ store, wellFormedIntentKey r.key = true)
    (hall : ∀ t ∈ txnConflictOwners write_batch store selfId,
      isPendingLower prio oracle t = true) :
    (∀ t ∈ txnConflictOwners write_batch store selfId,
      t ∈ (ResolveTransactionConflicts write_batch store selfId res rt prio
        (fun _ => oracle) false fuel).aborts) ∧
    (ResolveTransactionConflicts write_batch store selfId res rt prio
      (fun _ => oracle) false fuel).result = Except.ok res ∧
    (ResolveTransactionConflicts write_batch store selfId res rt prio
      (fun _ => oracle) false fuel).lockTrace = [] := by
  have hs := scanIntents_ok_of_wellFormed store hwf
  have hnb : ∀ t ∈ ownersOfParsed write_batch (parsedOf store) (some selfId),
      isBlocking prio oracle t = false :=
    fun t htm => isPendingLower_not_blocking prio oracle t (hall t htm)
  have hc := classifyTxn_no_blockers oracle rt prio false
    (ownersOfParsed write_batch (parsedOf store) (some selfId)) ⟨res, 0, []⟩ hnb
  have hrtc := RTC_opt_done write_batch store selfId res rt prio fuel
    (fun _ => oracle) (parsedOf store) _ hs hc
  refine ⟨?_, ?_, ?_⟩
  · intro t htm
    rw [hrtc]
    simp only []
    rw [runClassify_aborts]
    simp only [List.nil_append]
    exact List.mem_filter.mpr ⟨htm, hall t htm⟩
  · rw [hrtc]
    have hst := runClassify_ht_stable oracle rt prio
      (ownersOfParsed write_batch (parsedOf store) (some selfId)) ⟨res, 0, []⟩
      (fun t htm => isPendingLower_not_advancing rt prio oracle t (hall t htm))
    simp [hst]
  · rw [hrtc]

/-- C3 amended witness at the spec example: candidate priority 5 against an
existing pending transaction of priority 3. -/
theorem resolve_txn_abort_lower_amended_witness :
    (∀ t ∈ txnConflictOwners cCand cStoreA 0,
      t ∈ (ResolveTransactionConflicts cCand cStoreA 0 60 50 5 (fun _ => cOracleA)
        false 1).aborts) ∧
    (ResolveTransactionConflicts cCand cStoreA 0 60 50 5 (fun _ => cOracleA)
      false 1).result = Except.ok 60 ∧
    (ResolveTransactionConflicts cCand cStoreA 0 60 50 5 (fun _ => cOracleA)
      false 1).lockTrace = [] :=
  resolve_txn_abort_lower_amended cCand cStoreA 0 60 50 5 1 cOracleA (by decide) (by decide)

/-- C4: the non-transactional path has no self-intent exclusion (its owner
set is exactly the owners of conflicting parsed intents, whatever their
id), and on success the callback receives the maximal commit hybrid time
among the conflicting committed transactions (at least the caller's
resolution time, and at least every such commit time), so the caller can
order its effective write time after them; no commit record is part of the
outcome. -/
theorem resolve_op_reports_max_commit (doc_ops : List (List Nat × IntentTypeSet))
    (store : List IntentRecord) (res : Nat) (oracle : Nat → TxnStatus)
    (hwf : ∀ r ∈ store, wellFormedIntentKey r.key = true) :
    (ResolveOperationConflicts doc_ops store res oracle).result =
      Except.ok (maxCommitOf oracle res (opConflictOwners doc_ops store)) ∧
    res ≤ maxCommitOf oracle res (opConflictOwners doc_ops store) ∧
    (∀ t ∈ opConflictOwners doc_ops store, ∀ ct, oracle t = TxnStatus.committed ct →
      ct ≤ maxCommitOf oracle res (opConflictOwners doc_ops store)) ∧
    (∀ t, t ∈ opConflictOwners doc_ops store ↔
      ∃ p, (t, p) ∈ parsedOf store ∧ conflictsWithCandidate doc_ops p = true) := by
  have hs := scanIntents_ok_of_wellFormed store hwf
  have hroc := ROC_ok doc_ops store res oracle (parsedOf store) hs
  refine ⟨?_, maxCommitOf_init_le oracle res _, ?_, ?_⟩
  · rw [hroc]
    simp [classifyOwnersOp_ht]
    rfl
  · intro t htm ct hct
    exact maxCommitOf_bound oracle res _ t htm ct hct
  · intro t
    rw [opConflictOwners, mem_ownersOfParsed]
    simp [notSelf]

/-- C4 witness: a single conflicting transaction committed at 80 against
resolution time 60; the call reports 80. -/
theorem resolve_op_reports_max_commit_witness :
    (ResolveOperationConflicts cCand cStoreO 60 cOracleO).result =
      Except.ok (maxCommitOf cOracleO 60 (opConflictOwners cCand cStoreO)) ∧
    60 ≤ maxCommitOf cOracleO 60 (opConflictOwners cCand cStoreO) ∧
    (∀ t ∈ opConflictOwners cCand cStoreO, ∀ ct, cOracleO t = TxnStatus.committed ct →
      ct ≤ maxCommitOf cOracleO 60 (opConflictOwners cCand cStoreO)) ∧
    (∀ t, t ∈ opConflictOwners cCand cStoreO ↔
      ∃ p, (t, p) ∈ parsedOf cStoreO ∧ conflictsWithCandidate cCand p = true) :=
  resolve_op_reports_max_commit cCand cStoreO 60 cOracleO (by decide)

-- Lock-state helpers for C8

theorem RTC_lockTrace_held (wb : List (List Nat × IntentTypeSet))
    (store : List IntentRecord) (selfId res rt pr fuel : Nat)
    (oSeq : Nat → Nat → TxnStatus) (wq : Bool) :
    lockHeldAfter
      (ResolveTransactionConflicts wb store selfId res rt pr oSeq wq fuel).lockTrace =
      true := by
  obtain ⟨sc, hs⟩ : ∃ c, scanIntents store = c := ⟨_, rfl⟩
  cases sc with
  | error e =>
    rw [RTC_scan_error wb store selfId res rt pr fuel oSeq wq e hs]
    rfl
  | ok ps =>
    cases wq with
    | true =>
      rw [RTC_wq wb store selfId res rt pr fuel oSeq ps hs]
      exact resolveTxnLoop_lock _ oSeq rt pr res fuel 0 [] [] rfl
    | false =>
      obtain ⟨c, hc⟩ : ∃ c, classifyTxn (oSeq 0) rt pr false
          (ownersOfParsed wb ps (some selfId)) ⟨res, 0, []⟩ = c := ⟨_, rfl⟩
      cases c with
      | done s =>
        rw [RTC_opt_done wb store selfId res rt pr fuel oSeq ps s hs hc]
        rfl
      | conflictReject s =>
        rw [RTC_opt_reject wb store selfId res rt pr fuel oSeq ps s hs hc]
        rfl
      | blocked s b =>
        exact absurd hc (classifyTxn_not_blocked_of_no_wq (oSeq 0) rt pr _ _ s b)

theorem ROC_lockTrace_held (ops : List (List Nat × IntentTypeSet))
    (store : List IntentRecord) (res : Nat) (oracle : Nat → TxnStatus) :
    lockHeldAfter (ResolveOperationConflicts ops store res oracle).lockTrace = true := by
  obtain ⟨sc, hs⟩ : ∃ c, scanIntents store = c := ⟨_, rfl⟩
  cases sc with
  | error e =>
    rw [ROC_scan_error ops store res oracle e hs]
    rfl
  | ok ps =>
    rw [ROC_ok ops store res oracle ps hs]
    rfl

/-- C8: on every resolution call, transactional or non-transactional, the
lock batch is back in the held state whenever the success callback fires:
every temporary release for a wait-queue suspension is followed by a
re-acquisition before the outcome is delivered (the sequential model makes
the resolver the only mutator of the held/released state). -/
theorem resolve_lock_reacquired_before_success :
    (∀ (wb : List (List Nat × IntentTypeSet)) (store : List IntentRecord)
        (selfId res rt pr fuel : Nat) (oSeq : Nat → Nat → TxnStatus) (wq : Bool),
      (∃ h', (ResolveTransactionConflicts wb store selfId res rt pr oSeq wq fuel).result =
        Except.ok h') →
      lockHeldAfter
        (ResolveTransactionConflicts wb store selfId res rt pr oSeq wq fuel).lockTrace =
        true) ∧
    (∀ (ops : List (List Nat × IntentTypeSet)) (store : List IntentRecord)
        (res : Nat) (oracle : Nat → TxnStatus),
      (∃ h', (ResolveOperationConflicts ops store res oracle).result = Except.ok h') →
      lockHeldAfter (ResolveOperationConflicts ops store res oracle).lockTrace = true) :=
  ⟨fun wb store selfId res rt pr fuel oSeq wq _ =>
    RTC_lockTrace_held wb store selfId res rt pr fuel oSeq wq,
   fun ops store res oracle _ => ROC_lockTrace_held ops store res oracle⟩

/-- C8 witness: a pessimistic call that actually waits once (epoch 0 blocks
on a pending transaction, epoch 1 finds it committed), succeeds, and whose
lock trace is one release followed by one re-acquisition. -/
theorem resolve_lock_reacquired_before_success_witness :
    (ResolveTransactionConflicts cCand cStoreW 0 60 50 5 cOracleSeqW true 2).lockTrace =
      [LockEv.released, LockEv.reacquired] ∧
    lockHeldAfter
      (ResolveTransactionConflicts cCand cStoreW 0 60 50 5 cOracleSeqW true 2).lockTrace =
      true :=
  ⟨by decide,
   resolve_lock_reacquired_before_success.1 cCand cStoreW 0 60 50 5 2 cOracleSeqW true
     ⟨60, rfl⟩⟩
